import Mathlib

/-!
Verification of the torus-knot OBJ generator
(`src/scripts/generate-torus-knot.py`).

The script is embedded shallowly: machine floats become real numbers,
Python ints become `ℤ`, the nested generation loops become `List.range`
iterations, and the only runtime failure the script can hit during mesh
computation (integer division by zero in `i / path_segments` or
`j / tube_segments`) is made explicit through an `Except` result.
-/

namespace TorusKnot

/-- A 3-component vector, standing for the Python `(x, y, z)` tuples. -/
structure Vec3 where
  x : ℝ
  y : ℝ
  z : ℝ

/-- The configuration parameters of `generate_torus_knot_obj`
(`p`, `q`, `path_segments`, `tube_segments`, `torus_radius`,
`tube_radius`); the output file path plays no role in mesh content. -/
structure Config where
  p : ℤ
  q : ℤ
  path_segments : ℤ
  tube_segments : ℤ
  torus_radius : ℝ
  tube_radius : ℝ

/-- `math.sqrt(v[0]**2 + v[1]**2 + v[2]**2)`, the vector length used by
both `calculate_tangent` (line 52) and `normalize` (line 67). -/
noncomputable def vecLength (v : Vec3) : ℝ :=
  Real.sqrt (v.x ^ 2 + v.y ^ 2 + v.z ^ 2)

/-- Dot product of two vectors (used to state orthogonality). -/
noncomputable def dot3 (a b : Vec3) : ℝ :=
  a.x * b.x + a.y * b.y + a.z * b.z

/-- `calculate_position` (lines 21-38): position on the path curve,
with `R = torus_radius` and `r = tube_radius * 2`. -/
noncomputable def calculate_position (cfg : Config) (t : ℝ) : Vec3 :=
  let pt := (cfg.p : ℝ) * t
  let qt := (cfg.q : ℝ) * t
  let R := cfg.torus_radius
  let r := cfg.tube_radius * 2
  ⟨Real.cos pt * (R + r * Real.cos qt),
   Real.sin pt * (R + r * Real.cos qt),
   r * Real.sin qt⟩

/-- The analytic derivative `(dx_dt, dy_dt, dz_dt)` computed inside
`calculate_tangent` (lines 46-50). -/
noncomputable def tangent_deriv (cfg : Config) (t : ℝ) : Vec3 :=
  let pt := (cfg.p : ℝ) * t
  let qt := (cfg.q : ℝ) * t
  ⟨-(cfg.p : ℝ) * Real.sin pt *
      (cfg.torus_radius + cfg.tube_radius * 2 * Real.cos qt) -
      (cfg.q : ℝ) * cfg.tube_radius * 2 * Real.cos pt * Real.sin qt,
   (cfg.p : ℝ) * Real.cos pt *
      (cfg.torus_radius + cfg.tube_radius * 2 * Real.cos qt) -
      (cfg.q : ℝ) * cfg.tube_radius * 2 * Real.sin pt * Real.sin qt,
   (cfg.q : ℝ) * cfg.tube_radius * 2 * Real.cos qt⟩

/-- `calculate_tangent` (lines 40-55): normalized derivative, with the
fallback `(1, 0, 0)` when the derivative length is not positive. -/
noncomputable def calculate_tangent (cfg : Config) (t : ℝ) : Vec3 :=
  let d := tangent_deriv cfg t
  let length := vecLength d
  if length > 0 then ⟨d.x / length, d.y / length, d.z / length⟩
  else ⟨1, 0, 0⟩

/-- `cross_product` (lines 57-63). -/
noncomputable def cross_product (a b : Vec3) : Vec3 :=
  ⟨a.y * b.z - a.z * b.y,
   a.z * b.x - a.x * b.z,
   a.x * b.y - a.y * b.x⟩

/-- `normalize` (lines 65-70): divide by the length when it is positive,
otherwise return the fixed vector `(0, 0, 1)`. -/
noncomputable def normalize (v : Vec3) : Vec3 :=
  let length := vecLength v
  if length > 0 then ⟨v.x / length, v.y / length, v.z / length⟩
  else ⟨0, 0, 1⟩

/-- The reference up vector chosen at lines 80-83: `(0, 0, 1)` when
`abs(tangent[2]) < 0.9`, else `(0, 1, 0)`. -/
noncomputable def frame_up (tangent : Vec3) : Vec3 :=
  if |tangent.z| < 0.9 then ⟨0, 0, 1⟩ else ⟨0, 1, 0⟩

/-- `normal1 = normalize(cross_product(tangent, up))` (line 85). -/
noncomputable def frame_normal1 (tangent : Vec3) : Vec3 :=
  normalize (cross_product tangent (frame_up tangent))

/-- `normal2 = normalize(cross_product(tangent, normal1))` (line 86). -/
noncomputable def frame_normal2 (tangent : Vec3) : Vec3 :=
  normalize (cross_product tangent (frame_normal1 tangent))

/-- The path parameter `u = (i / path_segments) * 2 * math.pi` (line 74). -/
noncomputable def sampleU (cfg : Config) (i : ℕ) : ℝ :=
  ((i : ℝ) / (cfg.path_segments : ℝ)) * 2 * Real.pi

/-- The profile angle `v = (j / tube_segments) * 2 * math.pi` (line 89). -/
noncomputable def sampleV (cfg : Config) (j : ℕ) : ℝ :=
  ((j : ℝ) / (cfg.tube_segments : ℝ)) * 2 * Real.pi

/-- The normal `(nx, ny, nz)` appended for ring `i`, profile index `j`
(lines 95-97): `normal1 * cos(v) + normal2 * sin(v)`. -/
noncomputable def normalAt (cfg : Config) (i j : ℕ) : Vec3 :=
  let tangent := calculate_tangent cfg (sampleU cfg i)
  let normal1 := frame_normal1 tangent
  let normal2 := frame_normal2 tangent
  let v := sampleV cfg j
  ⟨normal1.x * Real.cos v + normal2.x * Real.sin v,
   normal1.y * Real.cos v + normal2.y * Real.sin v,
   normal1.z * Real.cos v + normal2.z * Real.sin v⟩

/-- The vertex `(vx, vy, vz)` appended for ring `i`, profile index `j`
(lines 100-102): `pos + tube_radius * normal`. -/
noncomputable def vertexAt (cfg : Config) (i j : ℕ) : Vec3 :=
  let pos := calculate_position cfg (sampleU cfg i)
  let n := normalAt cfg i j
  ⟨pos.x + cfg.tube_radius * n.x,
   pos.y + cfg.tube_radius * n.y,
   pos.z + cfg.tube_radius * n.z⟩

/-- The `vertices` list built by the nested loops at lines 73-104:
`for i in range(path_segments + 1): for j in range(tube_segments + 1)`.
`range` of a non-positive Python int is empty, hence `Int.toNat`. -/
noncomputable def vertices (cfg : Config) : List Vec3 :=
  (List.range (cfg.path_segments + 1).toNat).flatMap fun i =>
    (List.range (cfg.tube_segments + 1).toNat).map fun j =>
      vertexAt cfg i j

/-- The `normals` list built by the same loops (line 105). -/
noncomputable def normals (cfg : Config) : List Vec3 :=
  (List.range (cfg.path_segments + 1).toNat).flatMap fun i =>
    (List.range (cfg.tube_segments + 1).toNat).map fun j =>
      normalAt cfg i j

/-- The face emitted for `(i, j)` (lines 110-116): zero-based corners
`v1 = i*(tube_segments+1)+j`, `v2 = v1+1`, `v3 = v1+(tube_segments+1)`,
`v4 = v3+1`, appended one-based in the order `(v1+1, v2+1, v4+1, v3+1)`. -/
def faceAt (cfg : Config) (i j : ℕ) : ℤ × ℤ × ℤ × ℤ :=
  let v1 : ℤ := (i : ℤ) * (cfg.tube_segments + 1) + (j : ℤ)
  let v2 : ℤ := v1 + 1
  let v3 : ℤ := v1 + (cfg.tube_segments + 1)
  let v4 : ℤ := v3 + 1
  (v1 + 1, v2 + 1, v4 + 1, v3 + 1)

/-- The `faces` list built by the loops at lines 108-116:
`for i in range(path_segments): for j in range(tube_segments)`. -/
def faces (cfg : Config) : List (ℤ × ℤ × ℤ × ℤ) :=
  (List.range cfg.path_segments.toNat).flatMap fun i =>
    (List.range cfg.tube_segments.toNat).map fun j =>
      faceAt cfg i j

/-- The in-memory mesh data assembled before the file is written. -/
structure Mesh where
  vertices : List Vec3
  normals : List Vec3
  faces : List (ℤ × ℤ × ℤ × ℤ)

/-- The runtime failures relevant to mesh generation. The script defines
no validation error; `invalidConfiguration` exists only so that the
specification's claimed behavior can be stated about the embedding.
`zeroDivisionError` is the Python `ZeroDivisionError` raised by
`i / path_segments` when `path_segments == 0`, or by
`j / tube_segments` when `tube_segments == 0`. -/
inductive GenError where
  | invalidConfiguration
  | zeroDivisionError
deriving DecidableEq

/-- The mesh-computation phase of `generate_torus_knot_obj`
(lines 7-116).  The script performs no configuration validation: the
only way it fails before producing a mesh is the division by zero hit
on the first loop iteration when `path_segments = 0` (line 74), or —
once the outer loop runs, i.e. `path_segments ≥ 1` — when
`tube_segments = 0` (line 89).  Every other configuration yields the
vertex, normal and face lists unconditionally. -/
noncomputable def generate_torus_knot_obj (cfg : Config) :
    Except GenError Mesh :=
  if cfg.path_segments = 0 then .error .zeroDivisionError
  else if 0 < cfg.path_segments ∧ cfg.tube_segments = 0 then
    .error .zeroDivisionError
  else .ok ⟨vertices cfg, normals cfg, faces cfg⟩

/-- One `v x y z` line (line 126); `fmt` stands for the `:.6f` float
formatting, which a real-number embedding keeps abstract. -/
def vertexLine (fmt : ℝ → String) (v : Vec3) : String :=
  "v " ++ fmt v.x ++ " " ++ fmt v.y ++ " " ++ fmt v.z ++ "\n"

/-- One `vn x y z` line (line 132). -/
def normalLine (fmt : ℝ → String) (n : Vec3) : String :=
  "vn " ++ fmt n.x ++ " " ++ fmt n.y ++ " " ++ fmt n.z ++ "\n"

/-- One `f a//a b//b c//c d//d` line (line 138). -/
def faceLine (fc : ℤ × ℤ × ℤ × ℤ) : String :=
  "f " ++ toString fc.1 ++ "//" ++ toString fc.1 ++
    " " ++ toString fc.2.1 ++ "//" ++ toString fc.2.1 ++
    " " ++ toString fc.2.2.1 ++ "//" ++ toString fc.2.2.1 ++
    " " ++ toString fc.2.2.2 ++ "//" ++ toString fc.2.2.2 ++ "\n"

/-- The OBJ text written at lines 119-138: header comments, vertex
lines, a blank line, normal lines, a blank line, face lines. -/
def serializeMesh (fmt : ℝ → String) (cfg : Config) (m : Mesh) : String :=
  "# Torus Knot (" ++ toString cfg.p ++ "," ++ toString cfg.q ++ ")\n" ++
    "# Generated with correct parametric equations\n" ++
    "# Vertices: " ++ toString m.vertices.length ++
    ", Faces: " ++ toString m.faces.length ++ "\n\n" ++
    String.join (m.vertices.map (vertexLine fmt)) ++ "\n" ++
    String.join (m.normals.map (normalLine fmt)) ++ "\n" ++
    String.join (m.faces.map faceLine)

/-- The whole run as observed on the output file: either a failure, or
the serialized text of the computed mesh. -/
noncomputable def generate_output (fmt : ℝ → String) (cfg : Config) :
    Except GenError String :=
  (generate_torus_knot_obj cfg).map (serializeMesh fmt cfg)

/-! ### List helpers for the nested generation loops -/

theorem length_range_flatMap {α : Type} (f : ℕ → List α) (c : ℕ)
    (hf : ∀ i, (f i).length = c) :
    ∀ n, ((List.range n).flatMap f).length = n * c := by
  intro n
  induction n with
  | zero => simp
  | succ n ih =>
    rw [List.range_succ, List.flatMap_append, List.length_append, ih]
    simp [hf, Nat.succ_mul]

theorem getElem?_range_flatMap {α : Type} (f : ℕ → List α) (c : ℕ)
    (hf : ∀ i, (f i).length = c) :
    ∀ n i j, i < n → j < c →
      ((List.range n).flatMap f)[i * c + j]? = (f i)[j]? := by
  intro n
  induction n with
  | zero => intro i j hi _; exact absurd hi (Nat.not_lt_zero i)
  | succ n ih =>
    intro i j hi hj
    rw [List.range_succ, List.flatMap_append]
    rcases Nat.lt_or_ge i n with h | h
    · rw [List.getElem?_append_left, ih i j h hj]
      rw [length_range_flatMap f c hf n]
      calc i * c + j < i * c + c := Nat.add_lt_add_left hj _
        _ = (i + 1) * c := (Nat.succ_mul i c).symm
        _ ≤ n * c := Nat.mul_le_mul h (Nat.le_refl c)
    · have hi' : i = n := Nat.le_antisymm (Nat.lt_succ_iff.mp hi) h
      subst hi'
      rw [List.getElem?_append_right
        (by rw [length_range_flatMap f c hf]; exact Nat.le_add_right _ _)]
      rw [length_range_flatMap f c hf]
      simp

/-! ### C2: vertex, normal and face counts -/

theorem vertices_length (cfg : Config) :
    (vertices cfg).length =
      (cfg.path_segments + 1).toNat * (cfg.tube_segments + 1).toNat :=
  length_range_flatMap _ _ (fun _ => by simp) _

theorem normals_length (cfg : Config) :
    (normals cfg).length =
      (cfg.path_segments + 1).toNat * (cfg.tube_segments + 1).toNat :=
  length_range_flatMap _ _ (fun _ => by simp) _

theorem faces_length (cfg : Config) :
    (faces cfg).length =
      cfg.path_segments.toNat * cfg.tube_segments.toNat :=
  length_range_flatMap _ _ (fun _ => by simp) _

/-- C2: for every valid configuration, the mesh has exactly
`(path_segments+1)·(tube_segments+1)` vertices, as many normals, and
exactly `path_segments·tube_segments` faces. -/
theorem mesh_counts (cfg : Config)
    (hp : 1 ≤ cfg.p) (hq : 1 ≤ cfg.q)
    (hP : 3 ≤ cfg.path_segments) (hM : 3 ≤ cfg.tube_segments) :
    ((vertices cfg).length : ℤ) =
        (cfg.path_segments + 1) * (cfg.tube_segments + 1) ∧
    (normals cfg).length = (vertices cfg).length ∧
    ((faces cfg).length : ℤ) = cfg.path_segments * cfg.tube_segments := by
  refine ⟨?_, by rw [normals_length, vertices_length], ?_⟩
  · rw [vertices_length]
    push_cast
    rw [Int.toNat_of_nonneg (by omega), Int.toNat_of_nonneg (by omega)]
  · rw [faces_length]
    push_cast
    rw [Int.toNat_of_nonneg (by omega), Int.toNat_of_nonneg (by omega)]

/-- Witness for `mesh_counts` at the reference configuration scaled
down (`p=3, q=2, path_segments=4, tube_segments=4`): 25 vertices,
25 normals, 16 faces. -/
theorem mesh_counts_witness :
    ((vertices ⟨3, 2, 4, 4, 1, 0.3⟩).length : ℤ) = 5 * 5 ∧
    (normals ⟨3, 2, 4, 4, 1, 0.3⟩).length =
      (vertices ⟨3, 2, 4, 4, 1, 0.3⟩).length ∧
    ((faces ⟨3, 2, 4, 4, 1, 0.3⟩).length : ℤ) = 4 * 4 :=
  mesh_counts ⟨3, 2, 4, 4, 1, 0.3⟩ (by decide) (by decide)
    (by decide) (by decide)

/-! ### C3: face index ranges, distinctness and emission order -/

/-- C3: for every valid configuration, every one-based face index lies
in `[1, vertex_count]`, the four indices of a face are pairwise
distinct, and the face for `(i, j)` is emitted at position
`i·tube_segments + j` in the order `(v1+1, v2+1, v4+1, v3+1)` with
`v1 = i·(tube_segments+1)+j`, `v2 = v1+1`, `v3 = v1+(tube_segments+1)`,
`v4 = v3+1`. -/
theorem face_indices (cfg : Config)
    (hp : 1 ≤ cfg.p) (hq : 1 ≤ cfg.q)
    (hP : 3 ≤ cfg.path_segments) (hM : 3 ≤ cfg.tube_segments) :
    (∀ fc ∈ faces cfg,
        (∀ x ∈ [fc.1, fc.2.1, fc.2.2.1, fc.2.2.2],
            1 ≤ x ∧ x ≤ ((vertices cfg).length : ℤ)) ∧
        (fc.1 ≠ fc.2.1 ∧ fc.1 ≠ fc.2.2.1 ∧ fc.1 ≠ fc.2.2.2 ∧
          fc.2.1 ≠ fc.2.2.1 ∧ fc.2.1 ≠ fc.2.2.2 ∧
          fc.2.2.1 ≠ fc.2.2.2)) ∧
    (∀ i j, i < cfg.path_segments.toNat → j < cfg.tube_segments.toNat →
        (faces cfg)[i * cfg.tube_segments.toNat + j]? =
          some ((i : ℤ) * (cfg.tube_segments + 1) + (j : ℤ) + 1,
            ((i : ℤ) * (cfg.tube_segments + 1) + (j : ℤ) + 1) + 1,
            ((i : ℤ) * (cfg.tube_segments + 1) + (j : ℤ) +
              (cfg.tube_segments + 1) + 1) + 1,
            (i : ℤ) * (cfg.tube_segments + 1) + (j : ℤ) +
              (cfg.tube_segments + 1) + 1)) := by
  have hVlen : ((vertices cfg).length : ℤ) =
      (cfg.path_segments + 1) * (cfg.tube_segments + 1) :=
    (mesh_counts cfg hp hq hP hM).1
  constructor
  · intro fc hfc
    rw [faces, List.mem_flatMap] at hfc
    obtain ⟨i, hi, hfc⟩ := hfc
    rw [List.mem_map] at hfc
    obtain ⟨j, hj, rfl⟩ := hfc
    rw [List.mem_range] at hi hj
    have hi' : (i : ℤ) ≤ cfg.path_segments - 1 := by
      have h1 : ((i : ℕ) : ℤ) < (cfg.path_segments.toNat : ℤ) := by
        exact_mod_cast hi
      rw [Int.toNat_of_nonneg (by omega)] at h1
      omega
    have hj' : (j : ℤ) ≤ cfg.tube_segments - 1 := by
      have h1 : ((j : ℕ) : ℤ) < (cfg.tube_segments.toNat : ℤ) := by
        exact_mod_cast hj
      rw [Int.toNat_of_nonneg (by omega)] at h1
      omega
    have hi0 : (0 : ℤ) ≤ (i : ℤ) := Int.natCast_nonneg i
    have hj0 : (0 : ℤ) ≤ (j : ℤ) := Int.natCast_nonneg j
    have hMpos : (0 : ℤ) ≤ cfg.tube_segments + 1 := by omega
    have hub : (i : ℤ) * (cfg.tube_segments + 1) ≤
        (cfg.path_segments - 1) * (cfg.tube_segments + 1) :=
      mul_le_mul_of_nonneg_right hi' hMpos
    have hlb : (0 : ℤ) ≤ (i : ℤ) * (cfg.tube_segments + 1) :=
      mul_nonneg hi0 hMpos
    constructor
    · intro x hx
      rw [hVlen]
      simp only [faceAt, List.mem_cons, List.not_mem_nil, or_false] at hx
      rcases hx with rfl | rfl | rfl | rfl <;>
        constructor <;> nlinarith
    · simp only [faceAt]
      refine ⟨?_, ?_, ?_, ?_, ?_, ?_⟩ <;> omega
  · intro i j hi hj
    rw [faces, getElem?_range_flatMap _ cfg.tube_segments.toNat
      (fun _ => by simp) _ i j hi hj]
    rw [List.getElem?_map, List.getElem?_range hj]
    simp only [Option.map_some', Option.some.injEq, faceAt]

/-- Witness for `face_indices`: at configuration
`p=3, q=2, path_segments=4, tube_segments=4`, the face at loop position
`(i,j) = (1,2)` sits at list index `1·4+2 = 6` and is the one-based
quad `(8, 9, 14, 13)`. -/
theorem face_indices_witness :
    (faces ⟨3, 2, 4, 4, 1, 0.3⟩)[(6 : ℕ)]? = some (8, 9, 14, 13) := by
  have h := (face_indices ⟨3, 2, 4, 4, 1, 0.3⟩ (by decide) (by decide)
    (by decide) (by decide)).2 1 2 (by decide) (by decide)
  norm_num at h
  exact h

/-! ### Vector algebra lemmas for the frame construction -/

theorem dot3_comm (a b : Vec3) : dot3 a b = dot3 b a := by
  simp only [dot3]; ring

theorem dot3_self_eq (v : Vec3) :
    v.x ^ 2 + v.y ^ 2 + v.z ^ 2 = dot3 v v := by
  simp only [dot3]; ring

theorem vecLength_eq_sqrt_dot3 (v : Vec3) :
    vecLength v = Real.sqrt (dot3 v v) := by
  rw [vecLength, dot3_self_eq]

theorem vecLength_pos_iff (v : Vec3) :
    0 < vecLength v ↔ 0 < dot3 v v := by
  rw [vecLength_eq_sqrt_dot3]
  exact Real.sqrt_pos

theorem vecLength_eq_one_of_dot3 (v : Vec3) (h : dot3 v v = 1) :
    vecLength v = 1 := by
  rw [vecLength_eq_sqrt_dot3, h, Real.sqrt_one]

theorem vecLength_sq (v : Vec3) (h : 0 ≤ dot3 v v) :
    vecLength v ^ 2 = dot3 v v := by
  rw [vecLength_eq_sqrt_dot3]
  exact Real.sq_sqrt h

theorem dot3_scale_left (v w : Vec3) :
    dot3 ⟨v.x / vecLength v, v.y / vecLength v, v.z / vecLength v⟩ w =
      dot3 v w / vecLength v := by
  simp only [dot3]; ring

theorem dot3_scale_self (v : Vec3) (h : 0 < dot3 v v) :
    dot3 ⟨v.x / vecLength v, v.y / vecLength v, v.z / vecLength v⟩
      ⟨v.x / vecLength v, v.y / vecLength v, v.z / vecLength v⟩ = 1 := by
  have hL : 0 < vecLength v := (vecLength_pos_iff v).mpr h
  have hL2 : vecLength v ^ 2 = dot3 v v := vecLength_sq v h.le
  have hstep : dot3 ⟨v.x / vecLength v, v.y / vecLength v, v.z / vecLength v⟩
      ⟨v.x / vecLength v, v.y / vecLength v, v.z / vecLength v⟩ =
      dot3 v v / (vecLength v * vecLength v) := by
    simp only [dot3]
    rw [div_mul_div_comm, div_mul_div_comm, div_mul_div_comm,
      ← add_div, ← add_div]
  have hmul : vecLength v * vecLength v = dot3 v v := by
    rw [vecLength_eq_sqrt_dot3]
    exact Real.mul_self_sqrt h.le
  rw [hstep, hmul, div_self h.ne']

theorem normalize_of_pos (v : Vec3) (h : 0 < dot3 v v) :
    normalize v =
      ⟨v.x / vecLength v, v.y / vecLength v, v.z / vecLength v⟩ := by
  rw [normalize]
  exact if_pos ((vecLength_pos_iff v).mpr h)

theorem normalize_unit (v : Vec3) (h : 0 < dot3 v v) :
    dot3 (normalize v) (normalize v) = 1 := by
  rw [normalize_of_pos v h]
  exact dot3_scale_self v h

theorem normalize_orth (v w : Vec3) (h : 0 < dot3 v v)
    (h0 : dot3 v w = 0) : dot3 (normalize v) w = 0 := by
  rw [normalize_of_pos v h, dot3_scale_left, h0, zero_div]

theorem dot3_cross_self (a b : Vec3) :
    dot3 (cross_product a b) (cross_product a b) =
      dot3 a a * dot3 b b - dot3 a b ^ 2 := by
  simp only [dot3, cross_product]; ring

theorem dot3_cross_left (a b : Vec3) :
    dot3 (cross_product a b) a = 0 := by
  simp only [dot3, cross_product]; ring

theorem dot3_cross_right (a b : Vec3) :
    dot3 (cross_product a b) b = 0 := by
  simp only [dot3, cross_product]; ring

/-- The tangent returned by `calculate_tangent` is always a unit
vector: the normalized derivative in the positive-length branch, and
the fallback `(1,0,0)` otherwise. -/
theorem calculate_tangent_unit (cfg : Config) (t : ℝ) :
    dot3 (calculate_tangent cfg t) (calculate_tangent cfg t) = 1 := by
  rw [calculate_tangent]
  by_cases h : vecLength (tangent_deriv cfg t) > 0
  · rw [if_pos h]
    exact dot3_scale_self _ ((vecLength_pos_iff _).mp h)
  · rw [if_neg h]
    simp [dot3]

/-- The cross product of any unit vector with the up vector chosen for
it at lines 80-83 is nonzero: the up choice avoids near-parallelism. -/
theorem cross_up_pos (T : Vec3) (hT : dot3 T T = 1) :
    0 < dot3 (cross_product T (frame_up T))
        (cross_product T (frame_up T)) := by
  have hTT : T.x * T.x + T.y * T.y + T.z * T.z = 1 := by
    have := hT
    simp only [dot3] at this
    linarith
  rw [dot3_cross_self, hT]
  rw [frame_up]
  by_cases hz : |T.z| < 0.9
  · rw [if_pos hz]
    have h1 : dot3 T ⟨0, 0, 1⟩ = T.z := by simp [dot3]
    have h2 : dot3 (⟨0, 0, 1⟩ : Vec3) ⟨0, 0, 1⟩ = 1 := by
      simp [dot3]
    rw [h1, h2]
    have habs := abs_lt.mp hz
    nlinarith [habs.1, habs.2]
  · rw [if_neg hz]
    have h1 : dot3 T ⟨0, 1, 0⟩ = T.y := by simp [dot3]
    have h2 : dot3 (⟨0, 1, 0⟩ : Vec3) ⟨0, 1, 0⟩ = 1 := by
      simp [dot3]
    rw [h1, h2]
    have hz' : (0.9 : ℝ) ≤ |T.z| := le_of_not_lt hz
    have hz2 : (0.81 : ℝ) ≤ T.z * T.z := by
      nlinarith [sq_abs T.z, hz', abs_nonneg T.z]
    nlinarith [mul_self_nonneg T.x]

/-- Exact orthonormality of the frame built from any unit tangent. -/
theorem frame_orthonormal_exact (T : Vec3) (hT : dot3 T T = 1) :
    dot3 (frame_normal1 T) (frame_normal1 T) = 1 ∧
    dot3 (frame_normal1 T) T = 0 ∧
    dot3 (frame_normal2 T) (frame_normal2 T) = 1 ∧
    dot3 (frame_normal1 T) (frame_normal2 T) = 0 := by
  have hc1 := cross_up_pos T hT
  have hn1unit : dot3 (frame_normal1 T) (frame_normal1 T) = 1 :=
    normalize_unit _ hc1
  have hn1T : dot3 (frame_normal1 T) T = 0 := by
    rw [frame_normal1]
    exact normalize_orth _ _ hc1 (dot3_cross_left _ _)
  have hc2 : 0 < dot3 (cross_product T (frame_normal1 T))
      (cross_product T (frame_normal1 T)) := by
    rw [dot3_cross_self, hT, hn1unit]
    rw [dot3_comm T (frame_normal1 T), hn1T]
    norm_num
  have hn2unit : dot3 (frame_normal2 T) (frame_normal2 T) = 1 := by
    rw [frame_normal2]
    exact normalize_unit _ hc2
  have hn1n2 : dot3 (frame_normal1 T) (frame_normal2 T) = 0 := by
    rw [frame_normal2, dot3_comm]
    exact normalize_orth _ _ hc2 (dot3_cross_right _ _)
  exact ⟨hn1unit, hn1T, hn2unit, hn1n2⟩

/-- C6: at every path sample, the frame built at lines 80-86 satisfies
`|normal₁| ≈ 1`, `|normal₂| ≈ 1`, `dot(normal₁, tangent) ≈ 0` and
`dot(normal₁, normal₂) ≈ 0` within tolerance `1e-6` (they hold exactly
in real arithmetic). -/
theorem frame_orthonormality (cfg : Config) (t : ℝ) :
    |vecLength (frame_normal1 (calculate_tangent cfg t)) - 1| ≤
        1 / 1000000 ∧
    |vecLength (frame_normal2 (calculate_tangent cfg t)) - 1| ≤
        1 / 1000000 ∧
    |dot3 (frame_normal1 (calculate_tangent cfg t))
        (calculate_tangent cfg t)| ≤ 1 / 1000000 ∧
    |dot3 (frame_normal1 (calculate_tangent cfg t))
        (frame_normal2 (calculate_tangent cfg t))| ≤ 1 / 1000000 := by
  obtain ⟨h1, h2, h3, h4⟩ :=
    frame_orthonormal_exact _ (calculate_tangent_unit cfg t)
  refine ⟨?_, ?_, ?_, ?_⟩
  · rw [vecLength_eq_one_of_dot3 _ h1]; norm_num
  · rw [vecLength_eq_one_of_dot3 _ h3]; norm_num
  · rw [h2]; norm_num
  · rw [h4]; norm_num

/-! ### C7: tangent fallback and unit tangent -/

/-- C7: when the analytic derivative has zero magnitude the tangent is
exactly the fallback `(1, 0, 0)`; when the magnitude is positive the
tangent is the derivative divided by its magnitude, a unit vector. -/
theorem tangent_fallback (cfg : Config) (t : ℝ) :
    (vecLength (tangent_deriv cfg t) = 0 →
      calculate_tangent cfg t = ⟨1, 0, 0⟩) ∧
    (0 < vecLength (tangent_deriv cfg t) →
      calculate_tangent cfg t =
        ⟨(tangent_deriv cfg t).x / vecLength (tangent_deriv cfg t),
         (tangent_deriv cfg t).y / vecLength (tangent_deriv cfg t),
         (tangent_deriv cfg t).z / vecLength (tangent_deriv cfg t)⟩ ∧
      vecLength (calculate_tangent cfg t) = 1) := by
  constructor
  · intro h
    rw [calculate_tangent, if_neg (by rw [h]; exact lt_irrefl 0)]
  · intro h
    refine ⟨by rw [calculate_tangent, if_pos h], ?_⟩
    exact vecLength_eq_one_of_dot3 _ (calculate_tangent_unit cfg t)

/-- Witness for `tangent_fallback`: with `p = q = 0` the derivative at
`t = 0` vanishes and the tangent is the fallback `(1, 0, 0)`; with the
reference parameters the derivative at `t = 0` is nonzero and the
tangent has unit length. -/
theorem tangent_fallback_witness :
    calculate_tangent ⟨0, 0, 3, 3, 1, 0.3⟩ 0 = ⟨1, 0, 0⟩ ∧
    vecLength (calculate_tangent ⟨3, 2, 4, 4, 1, 0.3⟩ 0) = 1 := by
  constructor
  · refine (tangent_fallback ⟨0, 0, 3, 3, 1, 0.3⟩ 0).1 ?_
    simp [tangent_deriv, vecLength]
  · refine ((tangent_fallback ⟨3, 2, 4, 4, 1, 0.3⟩ 0).2 ?_).2
    rw [vecLength_pos_iff]
    simp only [tangent_deriv, dot3]
    norm_num

/-! ### C10: the zero-vector fallback of normalize -/

/-- C10: `normalize` is total — a zero-length input returns the fixed
vector `(0, 0, 1)`, distinct from the tangent fallback `(1, 0, 0)`,
so the frame construction never divides by zero. -/
theorem normalize_total (v : Vec3) (h : vecLength v = 0) :
    normalize v = ⟨0, 0, 1⟩ ∧ normalize v ≠ ⟨1, 0, 0⟩ := by
  have hz : normalize v = ⟨0, 0, 1⟩ := by
    rw [normalize, if_neg (by rw [h]; exact lt_irrefl 0)]
  refine ⟨hz, ?_⟩
  rw [hz]
  intro hcontra
  have : (0 : ℝ) = 1 := congrArg Vec3.x hcontra
  norm_num at this

/-- Witness for `normalize_total` at the zero vector. -/
theorem normalize_total_witness :
    normalize ⟨0, 0, 0⟩ = ⟨0, 0, 1⟩ ∧
    normalize ⟨0, 0, 0⟩ ≠ ⟨1, 0, 0⟩ :=
  normalize_total ⟨0, 0, 0⟩ (by simp [vecLength])

/-! ### Seam duplication: ring closure (C4) and path closure (C5) -/

theorem sampleV_zero (cfg : Config) : sampleV cfg 0 = 0 := by
  simp [sampleV]

theorem sampleV_last (cfg : Config) (hM : 0 < cfg.tube_segments) :
    sampleV cfg cfg.tube_segments.toNat = 2 * Real.pi := by
  rw [sampleV]
  have hcast : ((cfg.tube_segments.toNat : ℕ) : ℝ) =
      ((cfg.tube_segments : ℤ) : ℝ) := by
    exact_mod_cast congrArg (fun n : ℤ => (n : ℝ))
      (Int.toNat_of_nonneg hM.le)
  have hne : ((cfg.tube_segments : ℤ) : ℝ) ≠ 0 :=
    Int.cast_ne_zero.mpr hM.ne'
  rw [hcast, div_self hne]
  ring

theorem sampleU_zero (cfg : Config) : sampleU cfg 0 = 0 := by
  simp [sampleU]

theorem sampleU_last (cfg : Config) (hP : 0 < cfg.path_segments) :
    sampleU cfg cfg.path_segments.toNat = 2 * Real.pi := by
  rw [sampleU]
  have hcast : ((cfg.path_segments.toNat : ℕ) : ℝ) =
      ((cfg.path_segments : ℤ) : ℝ) := by
    exact_mod_cast congrArg (fun n : ℤ => (n : ℝ))
      (Int.toNat_of_nonneg hP.le)
  have hne : ((cfg.path_segments : ℤ) : ℝ) ≠ 0 :=
    Int.cast_ne_zero.mpr hP.ne'
  rw [hcast, div_self hne]
  ring

/-- C4: for every valid configuration and ring index `i`, the vertex
and normal at profile index `tube_segments` coincide exactly with those
at profile index `0` — both as generator functions and inside the
emitted `vertices` and `normals` lists. -/
theorem ring_closure (cfg : Config)
    (hp : 1 ≤ cfg.p) (hq : 1 ≤ cfg.q)
    (hP : 3 ≤ cfg.path_segments) (hM : 3 ≤ cfg.tube_segments)
    (i : ℕ) (hi : i ≤ cfg.path_segments.toNat) :
    vertexAt cfg i cfg.tube_segments.toNat = vertexAt cfg i 0 ∧
    normalAt cfg i cfg.tube_segments.toNat = normalAt cfg i 0 ∧
    (vertices cfg)[i * (cfg.tube_segments + 1).toNat +
        cfg.tube_segments.toNat]? =
      (vertices cfg)[i * (cfg.tube_segments + 1).toNat + 0]? ∧
    (normals cfg)[i * (cfg.tube_segments + 1).toNat +
        cfg.tube_segments.toNat]? =
      (normals cfg)[i * (cfg.tube_segments + 1).toNat + 0]? := by
  have hcos : Real.cos (sampleV cfg cfg.tube_segments.toNat) =
      Real.cos (sampleV cfg 0) := by
    rw [sampleV_last cfg (by omega), sampleV_zero, Real.cos_two_pi,
      Real.cos_zero]
  have hsin : Real.sin (sampleV cfg cfg.tube_segments.toNat) =
      Real.sin (sampleV cfg 0) := by
    rw [sampleV_last cfg (by omega), sampleV_zero, Real.sin_two_pi,
      Real.sin_zero]
  have hnorm : normalAt cfg i cfg.tube_segments.toNat =
      normalAt cfg i 0 := by
    simp only [normalAt, hcos, hsin]
  have hvert : vertexAt cfg i cfg.tube_segments.toNat =
      vertexAt cfg i 0 := by
    simp only [vertexAt, hnorm]
  have hilt : i < (cfg.path_segments + 1).toNat := by omega
  have hjlt : cfg.tube_segments.toNat < (cfg.tube_segments + 1).toNat := by
    omega
  have hjlt0 : 0 < (cfg.tube_segments + 1).toNat := by omega
  refine ⟨hvert, hnorm, ?_, ?_⟩
  · rw [vertices,
      getElem?_range_flatMap _ (cfg.tube_segments + 1).toNat
        (fun _ => by simp) _ i _ hilt hjlt,
      getElem?_range_flatMap _ (cfg.tube_segments + 1).toNat
        (fun _ => by simp) _ i _ hilt hjlt0]
    rw [List.getElem?_map, List.getElem?_map,
      List.getElem?_range hjlt, List.getElem?_range hjlt0]
    simp only [Option.map_some', hvert]
  · rw [normals,
      getElem?_range_flatMap _ (cfg.tube_segments + 1).toNat
        (fun _ => by simp) _ i _ hilt hjlt,
      getElem?_range_flatMap _ (cfg.tube_segments + 1).toNat
        (fun _ => by simp) _ i _ hilt hjlt0]
    rw [List.getElem?_map, List.getElem?_map,
      List.getElem?_range hjlt, List.getElem?_range hjlt0]
    simp only [Option.map_some', hnorm]

/-- Witness for `ring_closure` at the reference configuration scaled
down, ring `i = 2`. -/
theorem ring_closure_witness :
    vertexAt ⟨3, 2, 4, 4, 1, 0.3⟩ 2 4 = vertexAt ⟨3, 2, 4, 4, 1, 0.3⟩ 2 0 ∧
    normalAt ⟨3, 2, 4, 4, 1, 0.3⟩ 2 4 = normalAt ⟨3, 2, 4, 4, 1, 0.3⟩ 2 0 ∧
    (vertices ⟨3, 2, 4, 4, 1, 0.3⟩)[2 * 5 + 4]? =
      (vertices ⟨3, 2, 4, 4, 1, 0.3⟩)[2 * 5 + 0]? ∧
    (normals ⟨3, 2, 4, 4, 1, 0.3⟩)[2 * 5 + 4]? =
      (normals ⟨3, 2, 4, 4, 1, 0.3⟩)[2 * 5 + 0]? :=
  ring_closure ⟨3, 2, 4, 4, 1, 0.3⟩ (by decide) (by decide) (by decide)
    (by decide) 2 (by decide)

theorem sin_int_mul_two_pi (n : ℤ) :
    Real.sin ((n : ℝ) * (2 * Real.pi)) = 0 := by
  have h : ((n : ℝ) * (2 * Real.pi)) = ((2 * n : ℤ) : ℝ) * Real.pi := by
    push_cast
    ring
  rw [h]
  exact Real.sin_int_mul_pi (2 * n)

/-- The sampled path position returns to its start after a full turn:
`calculate_position` at `t = 2π` equals `calculate_position` at `t = 0`,
because `p` and `q` are integers. -/
theorem calculate_position_closed (cfg : Config) :
    calculate_position cfg (2 * Real.pi) = calculate_position cfg 0 := by
  simp only [calculate_position, mul_zero, Real.cos_zero, Real.sin_zero,
    Real.cos_int_mul_two_pi, sin_int_mul_two_pi]

/-- The analytic derivative likewise returns to its start value. -/
theorem tangent_deriv_closed (cfg : Config) :
    tangent_deriv cfg (2 * Real.pi) = tangent_deriv cfg 0 := by
  simp only [tangent_deriv, mul_zero, Real.cos_zero, Real.sin_zero,
    Real.cos_int_mul_two_pi, sin_int_mul_two_pi]

theorem calculate_tangent_closed (cfg : Config) :
    calculate_tangent cfg (2 * Real.pi) = calculate_tangent cfg 0 := by
  simp only [calculate_tangent, tangent_deriv_closed]

/-- C5: for every valid configuration, ring `0` and ring
`path_segments` coincide exactly: same vertex and same normal at every
profile index `j`, both as generator functions and inside the emitted
`vertices` and `normals` lists. -/
theorem path_closure (cfg : Config)
    (hp : 1 ≤ cfg.p) (hq : 1 ≤ cfg.q)
    (hP : 3 ≤ cfg.path_segments) (hM : 3 ≤ cfg.tube_segments)
    (j : ℕ) (hj : j ≤ cfg.tube_segments.toNat) :
    vertexAt cfg cfg.path_segments.toNat j = vertexAt cfg 0 j ∧
    normalAt cfg cfg.path_segments.toNat j = normalAt cfg 0 j ∧
    (vertices cfg)[cfg.path_segments.toNat *
        (cfg.tube_segments + 1).toNat + j]? =
      (vertices cfg)[0 * (cfg.tube_segments + 1).toNat + j]? ∧
    (normals cfg)[cfg.path_segments.toNat *
        (cfg.tube_segments + 1).toNat + j]? =
      (normals cfg)[0 * (cfg.tube_segments + 1).toNat + j]? := by
  have hu : sampleU cfg cfg.path_segments.toNat = 2 * Real.pi :=
    sampleU_last cfg (by omega)
  have hu0 : sampleU cfg 0 = 0 := sampleU_zero cfg
  have htan : calculate_tangent cfg (sampleU cfg cfg.path_segments.toNat) =
      calculate_tangent cfg (sampleU cfg 0) := by
    rw [hu, hu0, calculate_tangent_closed]
  have hpos : calculate_position cfg (sampleU cfg cfg.path_segments.toNat) =
      calculate_position cfg (sampleU cfg 0) := by
    rw [hu, hu0, calculate_position_closed]
  have hnorm : normalAt cfg cfg.path_segments.toNat j = normalAt cfg 0 j := by
    simp only [normalAt, htan]
  have hvert : vertexAt cfg cfg.path_segments.toNat j = vertexAt cfg 0 j := by
    simp only [vertexAt, hnorm, hpos]
  have hPlt : cfg.path_segments.toNat < (cfg.path_segments + 1).toNat := by
    omega
  have h0lt : 0 < (cfg.path_segments + 1).toNat := by omega
  have hjlt : j < (cfg.tube_segments + 1).toNat := by omega
  refine ⟨hvert, hnorm, ?_, ?_⟩
  · rw [vertices,
      getElem?_range_flatMap _ (cfg.tube_segments + 1).toNat
        (fun _ => by simp) _ _ j hPlt hjlt,
      getElem?_range_flatMap _ (cfg.tube_segments + 1).toNat
        (fun _ => by simp) _ 0 j h0lt hjlt]
    rw [List.getElem?_map, List.getElem?_map, List.getElem?_range hjlt]
    simp only [Option.map_some', hvert]
  · rw [normals,
      getElem?_range_flatMap _ (cfg.tube_segments + 1).toNat
        (fun _ => by simp) _ _ j hPlt hjlt,
      getElem?_range_flatMap _ (cfg.tube_segments + 1).toNat
        (fun _ => by simp) _ 0 j h0lt hjlt]
    rw [List.getElem?_map, List.getElem?_map, List.getElem?_range hjlt]
    simp only [Option.map_some', hnorm]

/-- Witness for `path_closure` at the reference configuration scaled
down, profile index `j = 1`. -/
theorem path_closure_witness :
    vertexAt ⟨3, 2, 4, 4, 1, 0.3⟩ 4 1 = vertexAt ⟨3, 2, 4, 4, 1, 0.3⟩ 0 1 ∧
    normalAt ⟨3, 2, 4, 4, 1, 0.3⟩ 4 1 = normalAt ⟨3, 2, 4, 4, 1, 0.3⟩ 0 1 ∧
    (vertices ⟨3, 2, 4, 4, 1, 0.3⟩)[4 * 5 + 1]? =
      (vertices ⟨3, 2, 4, 4, 1, 0.3⟩)[0 * 5 + 1]? ∧
    (normals ⟨3, 2, 4, 4, 1, 0.3⟩)[4 * 5 + 1]? =
      (normals ⟨3, 2, 4, 4, 1, 0.3⟩)[0 * 5 + 1]? :=
  path_closure ⟨3, 2, 4, 4, 1, 0.3⟩ (by decide) (by decide) (by decide)
    (by decide) 1 (by decide)

/-! ### C8: the position formula -/

/-- The position formula exactly as the specification words it:
`x = cos(p·t)·(R + r'·cos(q·t))`, `y = sin(p·t)·(R + r'·cos(q·t))`,
`z = r'·sin(q·t)` with `R = torus_radius` and `r' = 2·tube_radius`.
It exists only for comparison with `calculate_position`. -/
noncomputable def spec_position (cfg : Config) (t : ℝ) : Vec3 :=
  let R := cfg.torus_radius
  let r' := 2 * cfg.tube_radius
  ⟨Real.cos ((cfg.p : ℝ) * t) * (R + r' * Real.cos ((cfg.q : ℝ) * t)),
   Real.sin ((cfg.p : ℝ) * t) * (R + r' * Real.cos ((cfg.q : ℝ) * t)),
   r' * Real.sin ((cfg.q : ℝ) * t)⟩

/-- C8: the sampled path position agrees with the specification's
formula at every parameter, and the first sample (`t = 0`) of the
reference configuration (`torus_radius = 1.0`, `tube_radius = 0.3`)
is exactly `(1.6, 0, 0)`. -/
theorem position_formula :
    (∀ (cfg : Config) (t : ℝ),
        calculate_position cfg t = spec_position cfg t) ∧
    sampleU ⟨3, 2, 128, 32, 1, 0.3⟩ 0 = 0 ∧
    calculate_position ⟨3, 2, 128, 32, 1, 0.3⟩ 0 = ⟨1.6, 0, 0⟩ := by
  refine ⟨?_, sampleU_zero _, ?_⟩
  · intro cfg t
    simp only [calculate_position, spec_position, Vec3.mk.injEq]
    refine ⟨by ring, by ring, by ring⟩
  · simp only [calculate_position, Vec3.mk.injEq, mul_zero,
      Real.cos_zero, Real.sin_zero]
    norm_num

/-! ### C9: determinism -/

/-- C9: generation is a pure function of the six configuration values:
identical configurations produce identical meshes and identical
serialized output, for any float formatting `fmt`. -/
theorem generation_deterministic (fmt : ℝ → String) (cfg1 cfg2 : Config)
    (h : cfg1 = cfg2) :
    generate_torus_knot_obj cfg1 = generate_torus_knot_obj cfg2 ∧
    generate_output fmt cfg1 = generate_output fmt cfg2 := by
  subst h
  exact ⟨rfl, rfl⟩

/-- Witness for `generation_deterministic` at the reference
configuration. -/
theorem generation_deterministic_witness :
    generate_torus_knot_obj ⟨3, 2, 128, 32, 1, 0.3⟩ =
      generate_torus_knot_obj ⟨3, 2, 128, 32, 1, 0.3⟩ ∧
    generate_output (fun _ => "") ⟨3, 2, 128, 32, 1, 0.3⟩ =
      generate_output (fun _ => "") ⟨3, 2, 128, 32, 1, 0.3⟩ :=
  generation_deterministic (fun _ => "") ⟨3, 2, 128, 32, 1, 0.3⟩
    ⟨3, 2, 128, 32, 1, 0.3⟩ rfl

/-! ### C1: the script performs no configuration validation -/

/-- C1 counterexample: the configuration `p = 0, q = 2,
path_segments = 4, tube_segments = 4` violates the claimed validity
requirement `p ≥ 1`, yet `generate_torus_knot_obj` does not fail with
`InvalidConfiguration`: it returns the fully computed mesh, whose
vertex list alone has 25 entries. -/
theorem no_validation_counterexample :
    generate_torus_knot_obj ⟨0, 2, 4, 4, 1, 0.3⟩ ≠
      Except.error GenError.invalidConfiguration ∧
    generate_torus_knot_obj ⟨0, 2, 4, 4, 1, 0.3⟩ =
      Except.ok ⟨vertices ⟨0, 2, 4, 4, 1, 0.3⟩,
        normals ⟨0, 2, 4, 4, 1, 0.3⟩, faces ⟨0, 2, 4, 4, 1, 0.3⟩⟩ ∧
    (vertices ⟨0, 2, 4, 4, 1, 0.3⟩).length = 25 := by
  have hok : generate_torus_knot_obj ⟨0, 2, 4, 4, 1, 0.3⟩ =
      Except.ok ⟨vertices ⟨0, 2, 4, 4, 1, 0.3⟩,
        normals ⟨0, 2, 4, 4, 1, 0.3⟩, faces ⟨0, 2, 4, 4, 1, 0.3⟩⟩ := by
    rw [generate_torus_knot_obj, if_neg (by decide), if_neg (by decide)]
  refine ⟨?_, hok, ?_⟩
  · rw [hok]
    intro hcontra
    exact Except.noConfusion hcontra
  · rw [vertices_length]
    decide

/-- C1 amended: `generate_torus_knot_obj` contains no configuration
validation at all.  For every configuration with `path_segments ≥ 1`
and `tube_segments ≥ 1` — including every configuration with `p < 1`
or `q < 1` — it runs to completion and produces the full mesh; no
`InvalidConfiguration` failure can ever occur. -/
theorem no_validation (cfg : Config)
    (hP : 1 ≤ cfg.path_segments) (hM : 1 ≤ cfg.tube_segments) :
    generate_torus_knot_obj cfg =
      Except.ok ⟨vertices cfg, normals cfg, faces cfg⟩ := by
  rw [generate_torus_knot_obj, if_neg (by omega),
    if_neg (by rintro ⟨h1, h2⟩; omega)]

/-- Witness for `no_validation` at a configuration the specification
calls invalid (`p = 0`, `q = 0`). -/
theorem no_validation_witness :
    generate_torus_knot_obj ⟨0, 0, 3, 3, 1, 0.3⟩ =
      Except.ok ⟨vertices ⟨0, 0, 3, 3, 1, 0.3⟩,
        normals ⟨0, 0, 3, 3, 1, 0.3⟩, faces ⟨0, 0, 3, 3, 1, 0.3⟩⟩ :=
  no_validation ⟨0, 0, 3, 3, 1, 0.3⟩ (by decide) (by decide)

end TorusKnot
